import Mathlib

/-!
Verification of the event-sourced board store of the ourboard repository.

The development shallow-embeds the relevant parts of the source:

* the outbound sync queue (the message queue built on a lonna atom:
  `sendIfPossible`, `ack`, `enqueue`, `onConnect`);
* the continuity verifier (`verifyTwoPoints`, `verifyEventArrayContinuity`);
* the event-history store (`storeEventHistoryBundle`);
* the board loader (`getBoardHistory`, `getFullBoardHistory` streaming,
  `updateBoardWithEventChunk`, `fetchBoard`).

Serials are embedded as `Int` (JavaScript numbers used as integer serials);
nullable serials are `Option Int`.  Fallible code returns `Except String`.
-/

instance {ε α : Type} [DecidableEq ε] [DecidableEq α] : DecidableEq (Except ε α) := fun x y =>
  match x, y with
  | .ok a, .ok b =>
    if h : a = b then .isTrue (by rw [h]) else .isFalse (fun hc => h (Except.ok.inj hc))
  | .error a, .error b =>
    if h : a = b then .isTrue (by rw [h]) else .isFalse (fun hc => h (Except.error.inj hc))
  | .ok _, .error _ => .isFalse (fun hc => Except.noConfusion hc)
  | .error _, .ok _ => .isFalse (fun hc => Except.noConfusion hc)

namespace OurBoard

/-- Access policies are opaque payloads for the purposes of the claims:
no claim inspects the policy value itself. -/
abbrev AccessPolicy := String

/-- Board state: identity, name, last applied serial, items (item ids:
item payloads are irrelevant to all claims), connections, nullable access
policy.  Mirrors the `Board` domain type as used by the store code. -/
structure Board where
  id : String
  name : String
  serial : Int
  items : List String
  connections : List String
  accessPolicy : Option AccessPolicy
deriving Repr, DecidableEq

/-- Mutation intents appearing in board history.  `setAccessPolicy` is the
variant singled out by the loader; `addItem`/`updateItem` stand for the
ordinary item mutations (their payload detail is irrelevant to the claims). -/
inductive BoardAction where
  | setAccessPolicy (policy : Option AccessPolicy)
  | addItem (itemId : String)
  | updateItem (itemId : String)
deriving Repr, DecidableEq

/-- A persisted history entry: action, assigned serial (nullable in the
row data, hence `Option`), and the `firstSerial` marker that only folded
client events carry. -/
structure BoardHistoryEntry where
  action : BoardAction
  serial : Option Int
  firstSerial : Option Int
deriving Repr, DecidableEq

/-- `assertNotNull` from common/src/assertNotNull: throws on a missing
value, returns it otherwise. -/
def assertNotNull {α : Type} : Option α → Except String α
  | some a => .ok a
  | none => .error "Assertion failed: value is null or undefined"

/-! ## Outbound sync queue (message-queue document of the client source) -/

/-- A client-side event for the sync queue.  Modelled from the spec:
`addOrReplaceEvent` (common/src/action-folding) is not under src/; per
spec section 4.2 an event is foldable against a queued event when it
targets the same logical entity and action-class; the payload carries the
event's data. -/
structure AppEvent where
  entity : String
  actionClass : String
  payload : Int
deriving Repr, DecidableEq

/-- Modelled from the spec: folding rule of common/src/action-folding
(not under src/).  A new event replaces, in place, the first queued event
targeting the same entity and action-class; otherwise it is appended at
the tail. -/
def addOrReplaceEvent (e : AppEvent) : List AppEvent → List AppEvent
  | [] => [e]
  | x :: xs =>
    if x.entity = e.entity ∧ x.actionClass = e.actionClass then e :: xs
    else x :: addOrReplaceEvent e xs

/-- The lonna-atom state of the message queue: `queue` holds not yet sent
events, `sent` holds the in-flight (sent but unacknowledged) batch. -/
structure QueueState where
  queue : List AppEvent
  sent : List AppEvent
deriving Repr, DecidableEq

/-- `sendIfPossible`: if something is in flight or nothing is queued, do
nothing; otherwise transmit the whole queue as one batch (returned as the
second component) and move it to `sent`. -/
def sendIfPossible (s : QueueState) : QueueState × Option (List AppEvent) :=
  if s.sent.length > 0 ∨ s.queue.length = 0 then (s, none)
  else ({ queue := [], sent := s.queue }, some s.queue)

/-- `ack`: clear `sent`, then try to send. -/
def ack (s : QueueState) : QueueState × Option (List AppEvent) :=
  sendIfPossible { s with sent := [] }

/-- `enqueue`: fold the event into `queue`, then try to send. -/
def enqueue (e : AppEvent) (s : QueueState) : QueueState × Option (List AppEvent) :=
  sendIfPossible { s with queue := addOrReplaceEvent e s.queue }

/-- `onConnect`: stop waiting for acks of messages from earlier sessions
(clear `sent`), then try to send. -/
def onConnect (s : QueueState) : QueueState × Option (List AppEvent) :=
  sendIfPossible { s with sent := [] }

/-- The operations that drive the queue. -/
inductive QueueOp where
  | enqueue (e : AppEvent)
  | ack
  | onConnect
deriving Repr, DecidableEq

/-- One reaction step of the queue. -/
def stepOp : QueueOp → QueueState → QueueState × Option (List AppEvent)
  | .enqueue e, s => enqueue e s
  | .ack, s => ack s
  | .onConnect, s => onConnect s

/-- The state each operation establishes before `sendIfPossible` runs. -/
def opModified : QueueOp → QueueState → QueueState
  | .enqueue e, s => { s with queue := addOrReplaceEvent e s.queue }
  | .ack, s => { s with sent := [] }
  | .onConnect, s => { s with sent := [] }

/-! ## Continuity verifier -/

/-- `verifyTwoPoints`: the successor check; a missing serial fails it
(in the source `undefined !== a + 1` holds). -/
def verifyTwoPoints (_boardId : String) (a : Int) (b : Option Int) : Bool :=
  match b with
  | some s => s = a + 1
  | none => false

/-- `verifyEventArrayContinuity`: walk the events requiring each serial
to be the previous accepted value plus one, starting from `init`. -/
def verifyEventArrayContinuity (boardId : String) (init : Int) :
    List BoardHistoryEntry → Bool
  | [] => true
  | e :: rest =>
    if verifyTwoPoints boardId init e.serial then
      verifyEventArrayContinuity boardId (e.serial.getD 0) rest
    else false

/-! ## Event-history store -/

/-- One row of the board_event table: board id, first/last serial columns
and the bundled entries. -/
structure BundleRow where
  boardId : String
  firstSerial : Int
  lastSerial : Int
  events : List BoardHistoryEntry
deriving Repr, DecidableEq

/-- `storeEventHistoryBundle`: a no-op on an empty entries list; throws on
a folded first event or a missing first/last serial; otherwise inserts one
bundle row tagged with the first and last serial.  The store is embedded
as the list of board_event rows in insertion order. -/
def storeEventHistoryBundle (boardId : String) (events : List BoardHistoryEntry)
    (db : List BundleRow) : Except String (List BundleRow) :=
  match events with
  | [] => .ok db
  | first :: rest =>
    if first.firstSerial ≠ none then
      .error "Assertion failed: folded events not expected on the server side."
    else do
      let fs ← assertNotNull first.serial
      let ls ← assertNotNull ((first :: rest).getLast (List.cons_ne_nil first rest)).serial
      .ok (db ++ [{ boardId := boardId, firstSerial := fs, lastSerial := ls,
                    events := first :: rest }])

/-- The store's current tail for a board: the highest persisted
last_serial among its rows (0 for a board with no rows). -/
def currentTail (db : List BundleRow) (boardId : String) : Int :=
  ((db.filter (fun r => r.boardId = boardId)).map (fun r => r.lastSerial)).foldl max 0

/-! ## Board reducer -/

/-- The reducer options record passed at each fold step. -/
structure ReducerOptions where
  inplace : Bool
  strictOnSerials : Bool
deriving Repr, DecidableEq

/-- Applying one action to a board; the board's serial becomes the event's
serial (kept unchanged when the event carries none). -/
def applyAction (b : Board) (e : BoardHistoryEntry) : Board :=
  let b' :=
    match e.action with
    | .setAccessPolicy p => { b with accessPolicy := p }
    | .addItem itemId =>
      if itemId ∈ b.items then b else { b with items := b.items ++ [itemId] }
    | .updateItem itemId =>
      -- unknown item references are no-ops; item payloads are not modelled
      if itemId ∈ b.items then b else b
  { b' with serial := e.serial.getD b.serial }

/-- Modelled from the spec: `boardReducer` (common/src/board-reducer) is
not under src/.  Per spec section 4.1 it is the pure transition
`(board, event, options) -> (board', serial)`; with `strictOnSerials`
true it rejects an event whose serial is not exactly `board.serial + 1`,
with it false serials are accepted in the given order; `inplace` is a
performance hint with identical observable result. -/
def boardReducer (b : Board) (e : BoardHistoryEntry) (opts : ReducerOptions) :
    Except String (Board × Option Int) :=
  if opts.strictOnSerials ∧ e.serial ≠ some (b.serial + 1) then
    .error "Serial mismatch in boardReducer"
  else
    .ok (applyAction b e, e.serial)

/-! ## Board loader -/

/-- The closure state of `fetchBoard` threaded through the streamed chunk
callbacks: the running board, the loop index, the replayed-event count,
the last seen serial and the rebuild flag. -/
structure ChunkState where
  board : Board
  i : Nat
  historyEventCount : Nat
  lastSerial : Int
  rebuildingSnapshot : Bool
deriving Repr, DecidableEq

/-- One step of the reduce inside `updateBoardWithEventChunk`: an
access-policy event only advances the serial (the board table's policy
columns are the master); every other event goes through `boardReducer`
with `inplace` true and `strictOnSerials` set to the negation of the
rebuild flag. -/
def chunkReduceStep (rebuildingSnapshot : Bool) (b : Board)
    (e : BoardHistoryEntry) : Except String Board :=
  match e.action with
  | .setAccessPolicy _ => do
    let s ← assertNotNull e.serial
    .ok { b with serial := s }
  | _ =>
    (boardReducer b e { inplace := true, strictOnSerials := !rebuildingSnapshot }).map
      Prod.fst

/-- `updateBoardWithEventChunk`: fold the chunk onto the running board,
bump the loop index and the replayed-event count by the chunk length, and
record the chunk's last serial (falling back to the snapshot serial when
it is missing).  An empty chunk raises (reading `.serial` of
`chunk[chunk.length - 1]`, which is undefined). -/
def updateBoardWithEventChunk (snapshotSerial : Int) (st : ChunkState)
    (chunk : List BoardHistoryEntry) : Except String ChunkState :=
  match chunk.getLast? with
  | none => .error "TypeError: cannot read properties of undefined"
  | some last =>
    match chunk.foldlM (chunkReduceStep st.rebuildingSnapshot) st.board with
    | .error e => .error e
    | .ok b =>
      .ok { st with
            board := b,
            i := st.i + chunk.length,
            historyEventCount := st.historyEventCount + chunk.length,
            lastSerial := last.serial.getD snapshotSerial }

/-- The serial bookkeeping of the streaming query in `getBoardHistory`:
first streamed serial, last streamed serial, first valid
(greater-than-afterSerial) serial; each initialised to the sentinel -1. -/
structure StreamAcc where
  firstSerial : Int
  lastSerial : Int
  firstValidSerial : Int
deriving Repr, DecidableEq

/-- The filter applied to each streamed chunk: keep events whose serial
is present and greater than `afterSerial` (in the source
`r.serial! > afterSerial`, false for a missing serial against a
non-negative bound). -/
def validAfter (afterSerial : Int) (e : BoardHistoryEntry) : Bool :=
  match e.serial with
  | some s => afterSerial < s
  | none => false

/-- Record the first streamed serial when still unset (the
`firstSerial === -1 && typeof chunk[0]?.serial === "number"` update). -/
def recordFirstSerial (acc : StreamAcc) (chunk : List BoardHistoryEntry) : StreamAcc :=
  if acc.firstSerial = -1 then
    match chunk.head? with
    | some e =>
      match e.serial with
      | some s => { acc with firstSerial := s }
      | none => acc
    | none => acc
  else acc

/-- Record the first surviving serial when still unset (the
`firstValidSerial === -1 && typeof validEventsAfter[0].serial === "number"`
update). -/
def recordFirstValidSerial (acc : StreamAcc) (valid : List BoardHistoryEntry) : StreamAcc :=
  if acc.firstValidSerial = -1 then
    match valid.head? with
    | some e =>
      match e.serial with
      | some s => { acc with firstValidSerial := s }
      | none => acc
    | none => acc
  else acc

/-- The chunk loop of `getBoardHistory`: for each streamed chunk record
the first/last serial, discard events at or below `afterSerial`, skip the
callback when nothing survives, record the first surviving serial, and
feed the survivors to the callback; a callback failure destroys the
stream and surfaces the error with the state as of the last successful
chunk. -/
def streamValidChunks {σ : Type} (cb : σ → List BoardHistoryEntry → Except String σ)
    (afterSerial : Int) :
    List (List BoardHistoryEntry) → σ → StreamAcc → σ × StreamAcc × Option String
  | [], st, acc => (st, acc, none)
  | chunk :: rest, st, acc =>
    match chunk.getLast? with
    | none => (st, acc, some "TypeError: cannot read properties of undefined")
    | some last =>
      let acc2 := { recordFirstSerial acc chunk with lastSerial := last.serial.getD (-1) }
      match chunk.filter (validAfter afterSerial) with
      | [] => streamValidChunks cb afterSerial rest st acc2
      | v0 :: vs =>
        let acc3 := recordFirstValidSerial acc2 (v0 :: vs)
        match cb st (v0 :: vs) with
        | .ok st' => streamValidChunks cb afterSerial rest st' acc3
        | .error e => (st, acc3, some e)

/-- The post-stream continuity checks of `getBoardHistory`: in order, the
caller is already current (last streamed serial equals `afterSerial`),
the surviving history is continuous (first valid serial equals
`afterSerial + 1`), nothing valid was found (fine only when requesting
from serial 0), otherwise a noncontinuous timeline error. -/
def getBoardHistoryRun {σ : Type} (cb : σ → List BoardHistoryEntry → Except String σ)
    (afterSerial : Int) (chunks : List (List BoardHistoryEntry)) (st : σ) :
    σ × Option String :=
  match streamValidChunks cb afterSerial chunks st ⟨-1, -1, -1⟩ with
  | (st', _, some e) => (st', some e)
  | (st', acc, none) =>
    if acc.lastSerial = afterSerial then (st', none)
    else if acc.firstValidSerial = afterSerial + 1 then (st', none)
    else if acc.firstValidSerial = -1 then
      if afterSerial = 0 then (st', none)
      else (st', some "Cannot find history to start after the requested serial: the requested serial is higher than currently stored in DB")
    else (st', some "Found noncontinuous event timeline")

/-- The chunk loop of `getFullBoardHistory`: every bundle's events are fed
to the callback unfiltered; a callback failure destroys the stream and
surfaces the error with the state as of the last successful chunk. -/
def streamAllChunks {σ : Type} (cb : σ → List BoardHistoryEntry → Except String σ) :
    List (List BoardHistoryEntry) → σ → σ × Option String
  | [], st => (st, none)
  | chunk :: rest, st =>
    match cb st chunk with
    | .ok st' => streamAllChunks cb rest st'
    | .error e => (st, some e)

/-- Insertion into a list sorted by ascending last_serial. -/
def insertByLastSerial (r : BundleRow) : List BundleRow → List BundleRow
  | [] => [r]
  | x :: xs =>
    if r.lastSerial < x.lastSerial then r :: x :: xs
    else x :: insertByLastSerial r xs

/-- The ORDER BY last_serial of the bundle queries. -/
def sortByLastSerial : List BundleRow → List BundleRow
  | [] => []
  | x :: xs => insertByLastSerial x (sortByLastSerial xs)

/-- The rows `getBoardHistory` streams: the board's rows with
`last_serial >= afterSerial`, in ascending last_serial order, as event
chunks. -/
def chunksAfter (boardId : String) (afterSerial : Int) (db : List BundleRow) :
    List (List BoardHistoryEntry) :=
  ((sortByLastSerial db).filter
      (fun r => r.boardId = boardId ∧ afterSerial ≤ r.lastSerial)).map
    (fun r => r.events)

/-- The rows `getFullBoardHistory` streams: all of the board's rows, in
ascending last_serial order, as event chunks. -/
def allChunks (boardId : String) (db : List BundleRow) :
    List (List BoardHistoryEntry) :=
  ((sortByLastSerial db).filter (fun r => r.boardId = boardId)).map
    (fun r => r.events)

/-- `mkSnapshot`: the board frozen at the given serial.  Modelled from the
spec for the normalization part: `migrateBoard` (common/src/migration) is
not under src/ and is embedded as the identity normalization. -/
def mkSnapshot (board : Board) (serial : Int) : Board :=
  { board with serial := serial }

/-- What `fetchBoard` produces: the loaded board and the snapshot written
by the compaction policy, when one was written.  (The access-token query
is outside every claim and is not embedded.) -/
structure LoadResult where
  board : Board
  savedSnapshot : Option Board
deriving Repr, DecidableEq

/-- The closure state at the start of `fetchBoard`'s replay. -/
def initialChunkState (snapshot : Board) : ChunkState :=
  { board := snapshot, i := 0, historyEventCount := 0, lastSerial := 0,
    rebuildingSnapshot := false }

/-- The reset performed by `fetchBoard`'s catch handler: the board becomes
the snapshot with empty items and connections, the loop index restarts
and the rebuild flag is raised; the replayed-event count and last seen
serial are deliberately not reset. -/
def resetState (snapshot : Board) (st : ChunkState) : ChunkState :=
  { st with
    board := { snapshot with items := [], connections := [] },
    i := 0,
    rebuildingSnapshot := true }

/-- The tail of `fetchBoard` after replay: the resulting serial is the
last seen serial when any event was replayed, the snapshot serial
otherwise; a fresh snapshot at that serial is saved when more than 1000
events were replayed or a rebuild occurred; the board is returned with
that serial. -/
def finalize (snapshot : Board) (st : ChunkState) : LoadResult :=
  let serial := if st.historyEventCount > 0 then st.lastSerial else snapshot.serial
  { board := { st.board with serial := serial },
    savedSnapshot :=
      if st.historyEventCount > 1000 ∨ st.rebuildingSnapshot then
        some (mkSnapshot st.board serial)
      else none }

/-- `fetchBoard`: replay the streamed history after the snapshot onto the
snapshot; on failure reset to the emptied snapshot and replay the entire
history once with the rebuild flag raised; if that also fails, rethrow;
otherwise finish with the compaction policy. -/
def fetchBoard (snapshot : Board) (db : List BundleRow) : Except String LoadResult :=
  match getBoardHistoryRun (updateBoardWithEventChunk snapshot.serial)
      snapshot.serial (chunksAfter snapshot.id snapshot.serial db)
      (initialChunkState snapshot) with
  | (st1, none) => .ok (finalize snapshot st1)
  | (st1, some _) =>
    match streamAllChunks (updateBoardWithEventChunk snapshot.serial)
        (allChunks snapshot.id db) (resetState snapshot st1) with
    | (st2, none) => .ok (finalize snapshot st2)
    | (_, some e) => .error e

/-- `getBoardHistory` viewed as a function of the streamed chunks, with
the callback collecting the surviving chunks (the callback of claim C5 is
assumed not to throw). -/
def getBoardHistory (afterSerial : Int) (chunks : List (List BoardHistoryEntry)) :
    Except String (List (List BoardHistoryEntry)) :=
  match getBoardHistoryRun (fun acc chunk => .ok (acc ++ [chunk])) afterSerial
      chunks ([] : List (List BoardHistoryEntry)) with
  | (st, none) => .ok st
  | (_, some e) => .error e

/-- The serial of the last event of the last streamed chunk (the claim's
"last streamed serial"), -1 when there is none. -/
def lastStreamedSerial (chunks : List (List BoardHistoryEntry)) : Int :=
  match chunks.getLast? with
  | some c =>
    match c.getLast? with
    | some e => e.serial.getD (-1)
    | none => -1
  | none => -1

/-- The serial of the first streamed event with serial greater than
`afterSerial`, if any (the claim's "first event with serial greater than
afterSerial"). -/
def firstValidSerialIn (afterSerial : Int) (chunks : List (List BoardHistoryEntry)) :
    Option Int :=
  ((chunks.flatten.filter (validAfter afterSerial)).head?).bind (fun e => e.serial)

/-- The fold step the spec describes for the normal replay path: identical
to `chunkReduceStep` except that `strictOnSerials` is false.  This is the
claimed behaviour, written out to be compared with the source's
`chunkReduceStep`. -/
def chunkReduceStepSpecNonStrict (b : Board) (e : BoardHistoryEntry) :
    Except String Board :=
  match e.action with
  | .setAccessPolicy _ => do
    let s ← assertNotNull e.serial
    .ok { b with serial := s }
  | _ =>
    (boardReducer b e { inplace := true, strictOnSerials := false }).map Prod.fst

/-! ## Theorems -/

/-- A transmission out of `sendIfPossible` happens exactly from a state
with nothing in flight and a non-empty queue, sends that whole queue and
moves it to `sent`. -/
theorem sendIfPossible_sends (t s' : QueueState) (batch : List AppEvent)
    (h : sendIfPossible t = (s', some batch)) :
    t.sent = [] ∧ t.queue = batch ∧ batch ≠ [] ∧
      s' = { queue := [], sent := batch } := by
  unfold sendIfPossible at h
  split at h
  · simp at h
  · next hc =>
    push_neg at hc
    obtain ⟨hc1, hc2⟩ := hc
    obtain ⟨h1, h2⟩ := Prod.mk.injEq .. ▸ h
    obtain rfl : batch = t.queue := (Option.some.inj h2).symm
    refine ⟨?_, rfl, ?_, h1.symm⟩
    · exact List.length_eq_zero.mp (Nat.le_zero.mp hc1)
    · exact fun hb => hc2 (by simp [hb])

/-- Claim C3: in every reachable situation, a step of the outbound sync
queue transmits only when, after the operation's own state update, the
in-flight list is empty and the queue non-empty; the transmission is the
entire queue as one batch, which moves to `sent` while `queue` is
cleared; and an `enqueue` while a batch is in flight transmits nothing
and leaves the in-flight batch alone. -/
theorem outbound_queue_single_batch :
    (∀ (op : QueueOp) (s s' : QueueState) (batch : List AppEvent),
        stepOp op s = (s', some batch) →
        (opModified op s).sent = [] ∧ (opModified op s).queue = batch ∧
          batch ≠ [] ∧ s' = { queue := [], sent := batch }) ∧
    (∀ (e : AppEvent) (s : QueueState), s.sent ≠ [] →
        stepOp (QueueOp.enqueue e) s =
          ({ s with queue := addOrReplaceEvent e s.queue }, none)) := by
  constructor
  · intro op s s' batch h
    cases op with
    | enqueue e => exact sendIfPossible_sends _ _ _ h
    | ack => exact sendIfPossible_sends _ _ _ h
    | onConnect => exact sendIfPossible_sends _ _ _ h
  · intro e s h
    have hl : s.sent.length > 0 := List.length_pos.mpr h
    simp [stepOp, enqueue, sendIfPossible, hl]

/-- Witness for C3: a concrete acknowledgment-driven transmission and a
concrete blocked enqueue. -/
theorem outbound_queue_single_batch_witness :
    ((opModified QueueOp.ack ⟨[⟨"A", "move", 1⟩], [⟨"B", "lock", 2⟩]⟩).sent = [] ∧
      (opModified QueueOp.ack ⟨[⟨"A", "move", 1⟩], [⟨"B", "lock", 2⟩]⟩).queue =
        [⟨"A", "move", 1⟩] ∧
      ([⟨"A", "move", 1⟩] : List AppEvent) ≠ [] ∧
      (⟨[], [⟨"A", "move", 1⟩]⟩ : QueueState) = ⟨[], [⟨"A", "move", 1⟩]⟩) ∧
    stepOp (QueueOp.enqueue ⟨"C", "move", 3⟩) ⟨[], [⟨"B", "lock", 2⟩]⟩ =
      (⟨[⟨"C", "move", 3⟩], [⟨"B", "lock", 2⟩]⟩, none) :=
  ⟨outbound_queue_single_batch.1 QueueOp.ack ⟨[⟨"A", "move", 1⟩], [⟨"B", "lock", 2⟩]⟩
      ⟨[], [⟨"A", "move", 1⟩]⟩ [⟨"A", "move", 1⟩] (by decide),
   outbound_queue_single_batch.2 ⟨"C", "move", 3⟩ ⟨[], [⟨"B", "lock", 2⟩]⟩ (by decide)⟩

/-- Counterexample to claim C2: with one event in flight and an empty
queue, `onConnect` clears the in-flight list without returning its events
to the queue and transmits nothing, so the event is gone from the queue
state entirely. -/
theorem onConnect_drops_inflight :
    stepOp QueueOp.onConnect ⟨[], [⟨"A", "move", 1⟩]⟩ =
      ({ queue := [], sent := [] }, none) ∧
    ({ queue := [], sent := [] } : QueueState) ≠
      { queue := [⟨"A", "move", 1⟩], sent := [] } := by
  decide

/-- Claim C2 as amended: on a reconnect event the in-flight batch is
discarded (cleared without being returned to the queue) and a send of the
events currently in the queue is retried; nothing else is transmitted. -/
theorem onConnect_discards_inflight_and_retries (s : QueueState) :
    (s.queue = [] → onConnect s = ({ queue := [], sent := [] }, none)) ∧
    (s.queue ≠ [] → onConnect s = ({ queue := [], sent := s.queue }, some s.queue)) := by
  obtain ⟨q, snt⟩ := s
  constructor
  · intro h
    simp only at h
    subst h
    simp [onConnect, sendIfPossible]
  · intro h
    simp only at h
    have hq : ¬q.length = 0 := fun hc => h (List.length_eq_zero.mp hc)
    simp [onConnect, sendIfPossible, hq]

/-- Witness for the amended C2: a reconnect with one queued event and one
in-flight event retransmits only the queued event. -/
theorem onConnect_discards_inflight_and_retries_witness :
    onConnect ⟨[⟨"A", "move", 1⟩], [⟨"B", "lock", 2⟩]⟩ =
      ({ queue := [], sent := [⟨"A", "move", 1⟩] }, some [⟨"A", "move", 1⟩]) :=
  (onConnect_discards_inflight_and_retries ⟨[⟨"A", "move", 1⟩], [⟨"B", "lock", 2⟩]⟩).2
    (by decide)

/-- Claim C10: storing an empty entries list is a silent no-op: the store
is returned unchanged and no error is raised. -/
theorem storeEventHistoryBundle_empty_silent_noop (boardId : String)
    (db : List BundleRow) :
    storeEventHistoryBundle boardId [] db = .ok db := rfl

/-- Counterexample to claim C9: with the store's tail for board "b" at
serial 5, appending a bundle starting at serial 8 (not contiguous)
succeeds and inserts the row, instead of failing. -/
theorem storeEventHistoryBundle_accepts_noncontiguous :
    currentTail [⟨"b", 1, 5, []⟩] "b" = 5 ∧
    (8 : Int) ≠ 5 + 1 ∧
    storeEventHistoryBundle "b" [⟨.addItem "x", some 8, none⟩] [⟨"b", 1, 5, []⟩] =
      .ok [⟨"b", 1, 5, []⟩, ⟨"b", 8, 8, [⟨.addItem "x", some 8, none⟩]⟩] := by
  decide

/-- Claim C9 as amended: `storeEventHistoryBundle` performs no contiguity
check against the store's current tail: any non-empty entries list whose
first entry carries no folded `firstSerial` marker and whose first and
last serials are present is appended as a bundle row, regardless of the
store contents. -/
theorem storeEventHistoryBundle_appends_without_tail_check (boardId : String)
    (first : BoardHistoryEntry) (rest : List BoardHistoryEntry)
    (db : List BundleRow) (s1 s2 : Int)
    (h1 : first.firstSerial = none)
    (h2 : first.serial = some s1)
    (h3 : ((first :: rest).getLast (List.cons_ne_nil first rest)).serial = some s2) :
    storeEventHistoryBundle boardId (first :: rest) db =
      .ok (db ++ [{ boardId := boardId, firstSerial := s1, lastSerial := s2,
                    events := first :: rest }]) := by
  simp [storeEventHistoryBundle, h1, h2, h3, assertNotNull]
  rfl

/-- Witness for the amended C9: a concrete noncontiguous append that
succeeds. -/
theorem storeEventHistoryBundle_appends_without_tail_check_witness :
    storeEventHistoryBundle "c" [⟨.addItem "y", some 9, none⟩] [⟨"c", 1, 4, []⟩] =
      .ok [⟨"c", 1, 4, []⟩, ⟨"c", 9, 9, [⟨.addItem "y", some 9, none⟩]⟩] :=
  storeEventHistoryBundle_appends_without_tail_check "c" ⟨.addItem "y", some 9, none⟩
    [] [⟨"c", 1, 4, []⟩] 9 9 rfl rfl rfl

/-- Claim C7: an access-policy-change event processed by the board
loader's fold step yields the input board with only its serial advanced
to the event's serial; items, connections, name, id and in particular the
access policy are untouched.  This holds on both the normal and the
rebuild path. -/
theorem chunkReduceStep_access_policy_only_serial (rebuildingSnapshot : Bool)
    (b : Board) (e : BoardHistoryEntry) (p : Option AccessPolicy) (s : Int)
    (ha : e.action = .setAccessPolicy p) (hs : e.serial = some s) :
    chunkReduceStep rebuildingSnapshot b e = .ok { b with serial := s } := by
  simp [chunkReduceStep, ha, hs, assertNotNull]
  rfl

/-- Witness for C7: a concrete policy event against a concrete board,
leaving the stored policy and items as they were. -/
theorem chunkReduceStep_access_policy_only_serial_witness :
    chunkReduceStep false ⟨"b1", "n", 3, ["x"], ["c1"], some "old"⟩
        ⟨.setAccessPolicy (some "new"), some 4, none⟩ =
      .ok ⟨"b1", "n", 4, ["x"], ["c1"], some "old"⟩ :=
  chunkReduceStep_access_policy_only_serial false
    ⟨"b1", "n", 3, ["x"], ["c1"], some "old"⟩
    ⟨.setAccessPolicy (some "new"), some 4, none⟩ (some "new") 4 rfl rfl

/-- Counterexample to claim C4: on the normal (non-rebuild) path the fold
step is not the `strictOnSerials = false` step the claim describes: at a
board at serial 0, an ordinary event carrying serial 2 is rejected by the
source's step but accepted by the claimed non-strict step. -/
theorem normal_replay_not_nonstrict :
    chunkReduceStep false ⟨"b1", "n", 0, [], [], none⟩ ⟨.addItem "x", some 2, none⟩ ≠
      chunkReduceStepSpecNonStrict ⟨"b1", "n", 0, [], [], none⟩
        ⟨.addItem "x", some 2, none⟩ ∧
    chunkReduceStep false ⟨"b1", "n", 0, [], [], none⟩ ⟨.addItem "x", some 2, none⟩ =
      .error "Serial mismatch in boardReducer" ∧
    chunkReduceStepSpecNonStrict ⟨"b1", "n", 0, [], [], none⟩
        ⟨.addItem "x", some 2, none⟩ =
      .ok ⟨"b1", "n", 2, ["x"], [], none⟩ := by
  refine ⟨?_, rfl, rfl⟩
  decide

/-- Claim C4 as amended: during the normal (non-rebuild) replay path each
surviving non-policy entry is folded via the board reducer with
`strictOnSerials` set to true (it is false only while rebuilding); in
particular an entry whose serial is not exactly the running board's
serial plus one makes the fold fail. -/
theorem normal_replay_is_strict :
    (∀ (b : Board) (e : BoardHistoryEntry),
        (∀ p, e.action ≠ .setAccessPolicy p) →
        chunkReduceStep false b e =
          (boardReducer b e { inplace := true, strictOnSerials := true }).map Prod.fst) ∧
    (∀ (b : Board) (e : BoardHistoryEntry) (s : Int),
        (∀ p, e.action ≠ .setAccessPolicy p) →
        e.serial = some s → s ≠ b.serial + 1 →
        chunkReduceStep false b e = .error "Serial mismatch in boardReducer") := by
  constructor
  · intro b e h
    cases he : e.action with
    | setAccessPolicy p => exact absurd he (h p)
    | addItem itemId => simp [chunkReduceStep, he]
    | updateItem itemId => simp [chunkReduceStep, he]
  · intro b e s h hs hgap
    cases he : e.action with
    | setAccessPolicy p => exact absurd he (h p)
    | addItem itemId => simp [chunkReduceStep, boardReducer, he, hs, hgap, Except.map]
    | updateItem itemId => simp [chunkReduceStep, boardReducer, he, hs, hgap, Except.map]

/-- Claim C6: the continuity verifier over a flat event sequence (all of
whose entries carry serials) returns false exactly when some adjacent
pair of the serial sequence extended with the start serial at its front
differs by other than exactly one. -/
theorem verifyEventArrayContinuity_false_iff (boardId : String) (init : Int)
    (events : List BoardHistoryEntry)
    (h : ∀ e ∈ events, (BoardHistoryEntry.serial e).isSome) :
    verifyEventArrayContinuity boardId init events = false ↔
      ∃ p ∈ (init :: events.filterMap (fun e => e.serial)).zip
              (events.filterMap (fun e => e.serial)), p.2 ≠ p.1 + 1 := by
  induction events generalizing init with
  | nil => simp [verifyEventArrayContinuity]
  | cons e rest ih =>
    obtain ⟨s, hs⟩ := Option.isSome_iff_exists.mp (h e (List.mem_cons_self e rest))
    have hrest : ∀ x ∈ rest, (BoardHistoryEntry.serial x).isSome :=
      fun x hx => h x (List.mem_cons_of_mem e hx)
    simp only [verifyEventArrayContinuity, verifyTwoPoints, hs, List.filterMap_cons,
      Option.getD_some, List.zip_cons_cons]
    by_cases hcase : s = init + 1
    · subst hcase
      simp only [decide_True, if_true]
      rw [ih _ hrest]
      simp
    · simp [hcase]

/-- Witness for C6: a concrete gap (start 4, first serial 6). -/
theorem verifyEventArrayContinuity_false_iff_witness :
    verifyEventArrayContinuity "b" 4 [⟨.addItem "a", some 6, none⟩] = false ↔
      ∃ p ∈ ((4 : Int) :: [(⟨.addItem "a", some 6, none⟩ : BoardHistoryEntry)].filterMap
              (fun e => e.serial)).zip
              ([(⟨.addItem "a", some 6, none⟩ : BoardHistoryEntry)].filterMap
                (fun e => e.serial)), p.2 ≠ p.1 + 1 :=
  verifyEventArrayContinuity_false_iff "b" 4 [⟨.addItem "a", some 6, none⟩] (by decide)

/-- Witness for the amended C4: at a concrete board at serial 0 a
concrete gap event (serial 2) is rejected on the normal path. -/
theorem normal_replay_is_strict_witness :
    chunkReduceStep false ⟨"b2", "n", 0, [], [], none⟩ ⟨.addItem "z", some 2, none⟩ =
      .error "Serial mismatch in boardReducer" :=
  normal_replay_is_strict.2 ⟨"b2", "n", 0, [], [], none⟩
    ⟨.addItem "z", some 2, none⟩ 2 (by intro p h; cases h) rfl (by decide)

/-- `updateBoardWithEventChunk` never changes the rebuild flag. -/
theorem updateBoardWithEventChunk_rebuild (snapshotSerial : Int) (st : ChunkState)
    (chunk : List BoardHistoryEntry) (st' : ChunkState)
    (h : updateBoardWithEventChunk snapshotSerial st chunk = .ok st') :
    st'.rebuildingSnapshot = st.rebuildingSnapshot := by
  unfold updateBoardWithEventChunk at h
  split at h
  · exact Except.noConfusion h
  · split at h
    · exact Except.noConfusion h
    · obtain rfl := Except.ok.inj h
      rfl

/-- `streamValidChunks` with a flag-preserving callback preserves the
flag of the threaded state, also on the error path. -/
theorem streamValidChunks_preserves {σ : Type} (g : σ → Bool)
    (cb : σ → List BoardHistoryEntry → Except String σ) (afterSerial : Int)
    (hcb : ∀ s c s', cb s c = .ok s' → g s' = g s) :
    ∀ (chunks : List (List BoardHistoryEntry)) (st : σ) (acc : StreamAcc),
      g (streamValidChunks cb afterSerial chunks st acc).1 = g st := by
  intro chunks
  induction chunks with
  | nil => intro st acc; rfl
  | cons chunk rest ih =>
    intro st acc
    simp only [streamValidChunks]
    split
    · rfl
    · split
      · exact ih st _
      · split
        · next st' heq => rw [ih st' _, hcb _ _ _ heq]
        · rfl

/-- `streamAllChunks` with a flag-preserving callback preserves the flag. -/
theorem streamAllChunks_preserves {σ : Type} (g : σ → Bool)
    (cb : σ → List BoardHistoryEntry → Except String σ)
    (hcb : ∀ s c s', cb s c = .ok s' → g s' = g s) :
    ∀ (chunks : List (List BoardHistoryEntry)) (st : σ),
      g (streamAllChunks cb chunks st).1 = g st := by
  intro chunks
  induction chunks with
  | nil => intro st; rfl
  | cons chunk rest ih =>
    intro st
    simp only [streamAllChunks]
    split
    · next st' heq => rw [ih st', hcb _ _ _ heq]
    · rfl

/-- `getBoardHistoryRun` with a flag-preserving callback preserves the
flag. -/
theorem getBoardHistoryRun_preserves {σ : Type} (g : σ → Bool)
    (cb : σ → List BoardHistoryEntry → Except String σ) (afterSerial : Int)
    (hcb : ∀ s c s', cb s c = .ok s' → g s' = g s)
    (chunks : List (List BoardHistoryEntry)) (st : σ) :
    g (getBoardHistoryRun cb afterSerial chunks st).1 = g st := by
  have hmain := streamValidChunks_preserves g cb afterSerial hcb chunks st ⟨-1, -1, -1⟩
  unfold getBoardHistoryRun
  cases hres : streamValidChunks cb afterSerial chunks st ⟨-1, -1, -1⟩ with
  | mk st' rest2 =>
    obtain ⟨acc, o⟩ := rest2
    rw [hres] at hmain
    cases o with
    | some e => exact hmain
    | none =>
      dsimp only
      split_ifs <;> exact hmain

/-- Claim C1: when the streamed replay from the snapshot fails, the board
is reset to the snapshot with empty items and connections, the entire
history (all of the board's bundles, unfiltered) is replayed once from
that baseline with the rebuild flag raised, and this replay's outcome
decides the load: a second failure is rethrown as the result of
`fetchBoard`, while a success produces the board finalized from the
rebuild state. -/
theorem fetchBoard_recovery (snapshot : Board) (db : List BundleRow)
    (st1 : ChunkState) (err : String)
    (h1 : getBoardHistoryRun (updateBoardWithEventChunk snapshot.serial)
        snapshot.serial (chunksAfter snapshot.id snapshot.serial db)
        (initialChunkState snapshot) = (st1, some err)) :
    (resetState snapshot st1).board =
      { snapshot with items := [], connections := [] } ∧
    (resetState snapshot st1).rebuildingSnapshot = true ∧
    (∀ (st2 : ChunkState) (e : String),
        streamAllChunks (updateBoardWithEventChunk snapshot.serial)
          (allChunks snapshot.id db) (resetState snapshot st1) = (st2, some e) →
        fetchBoard snapshot db = .error e) ∧
    (∀ st2 : ChunkState,
        streamAllChunks (updateBoardWithEventChunk snapshot.serial)
          (allChunks snapshot.id db) (resetState snapshot st1) = (st2, none) →
        fetchBoard snapshot db = .ok (finalize snapshot st2)) := by
  refine ⟨rfl, rfl, ?_, ?_⟩
  · intro st2 e h2
    simp only [fetchBoard, h1, h2]
  · intro st2 h2
    simp only [fetchBoard, h1, h2]

/-- Witness for C1: a concrete board whose streamed replay fails (gap:
snapshot at serial 0, first surviving event at serial 5) and whose full
rebuild also fails (an access-policy entry without a serial), so the load
rethrows. -/
theorem fetchBoard_recovery_witness :
    fetchBoard ⟨"b1", "n", 0, [], [], none⟩
        [⟨"b1", 5, 5, [⟨.addItem "x", some 5, none⟩,
          ⟨.setAccessPolicy none, none, none⟩]⟩] =
      .error "Assertion failed: value is null or undefined" :=
  (fetchBoard_recovery ⟨"b1", "n", 0, [], [], none⟩
      [⟨"b1", 5, 5, [⟨.addItem "x", some 5, none⟩,
        ⟨.setAccessPolicy none, none, none⟩]⟩]
      (initialChunkState ⟨"b1", "n", 0, [], [], none⟩)
      "Serial mismatch in boardReducer" (by decide)).2.2.1
    (resetState ⟨"b1", "n", 0, [], [], none⟩
      (initialChunkState ⟨"b1", "n", 0, [], [], none⟩))
    "Assertion failed: value is null or undefined" (by decide)

/-- `finalize` saves a snapshot exactly under the compaction condition. -/
theorem finalize_savedSnapshot_isSome (snapshot : Board) (st : ChunkState) :
    ((finalize snapshot st).savedSnapshot.isSome = true) ↔
      (1000 < st.historyEventCount ∨ st.rebuildingSnapshot = true) := by
  unfold finalize
  by_cases hc : (st.historyEventCount > 1000 ∨ st.rebuildingSnapshot = true)
  · simp only [hc, if_true]
    simp [hc]
  · simp only [hc, if_false]
    simp [hc]

/-- A snapshot saved by `finalize` is frozen at the serial of the
returned board. -/
theorem finalize_savedSnapshot_serial (snapshot : Board) (st : ChunkState)
    (snap : Board) (h : (finalize snapshot st).savedSnapshot = some snap) :
    snap.serial = (finalize snapshot st).board.serial := by
  simp only [finalize] at h ⊢
  split_ifs at h ⊢ <;> (obtain rfl := (Option.some.inj h).symm; rfl)

/-- Claim C8: a successful load returns the finalized state of one replay
run, persists a new snapshot before returning exactly when more than 1000
events were replayed or a rebuild occurred (the rebuild flag is raised
exactly when the streamed replay failed), and any persisted snapshot is
frozen at the serial the loaded board is returned with. -/
theorem fetchBoard_compaction (snapshot : Board) (db : List BundleRow)
    (r : LoadResult) (h : fetchBoard snapshot db = .ok r) :
    ∃ st : ChunkState, r = finalize snapshot st ∧
      (r.savedSnapshot.isSome = true ↔
        (1000 < st.historyEventCount ∨ st.rebuildingSnapshot = true)) ∧
      (st.rebuildingSnapshot =
        (getBoardHistoryRun (updateBoardWithEventChunk snapshot.serial)
            snapshot.serial (chunksAfter snapshot.id snapshot.serial db)
            (initialChunkState snapshot)).2.isSome) ∧
      (∀ snap, r.savedSnapshot = some snap → snap.serial = r.board.serial) := by
  have hpres := getBoardHistoryRun_preserves (fun s => s.rebuildingSnapshot)
      (updateBoardWithEventChunk snapshot.serial) snapshot.serial
      (fun s c s' hcb => updateBoardWithEventChunk_rebuild _ _ _ _ hcb)
      (chunksAfter snapshot.id snapshot.serial db) (initialChunkState snapshot)
  unfold fetchBoard at h
  cases hrun : getBoardHistoryRun (updateBoardWithEventChunk snapshot.serial)
      snapshot.serial (chunksAfter snapshot.id snapshot.serial db)
      (initialChunkState snapshot) with
  | mk st1 o1 =>
    rw [hrun] at h hpres
    cases o1 with
    | none =>
      obtain rfl := (Except.ok.inj h).symm
      refine ⟨st1, rfl, finalize_savedSnapshot_isSome snapshot st1, ?_,
        fun snap hs => finalize_savedSnapshot_serial snapshot st1 snap hs⟩
      exact hpres
    | some e1 =>
      dsimp only at h
      cases hfull : streamAllChunks (updateBoardWithEventChunk snapshot.serial)
          (allChunks snapshot.id db) (resetState snapshot st1) with
      | mk st2 o2 =>
        rw [hfull] at h
        cases o2 with
        | none =>
          obtain rfl := (Except.ok.inj h).symm
          have hreb : st2.rebuildingSnapshot = true := by
            have hp2 := streamAllChunks_preserves (fun s => s.rebuildingSnapshot)
                (updateBoardWithEventChunk snapshot.serial)
                (fun s c s' hcb => updateBoardWithEventChunk_rebuild _ _ _ _ hcb)
                (allChunks snapshot.id db) (resetState snapshot st1)
            rw [hfull] at hp2
            exact hp2
          refine ⟨st2, rfl, finalize_savedSnapshot_isSome snapshot st2, ?_,
            fun snap hs => finalize_savedSnapshot_serial snapshot st2 snap hs⟩
          rw [hreb]
          rfl
        | some e2 => exact Except.noConfusion h

/-- Witness for C8: a concrete load that rebuilds (snapshot at serial 0,
sole bundle starting at serial 5) and therefore saves a snapshot at the
returned serial. -/
theorem fetchBoard_compaction_witness :
    ∃ st : ChunkState,
      (⟨⟨"b1", "n", 5, ["x"], [], none⟩,
        some ⟨"b1", "n", 5, ["x"], [], none⟩⟩ : LoadResult) =
        finalize ⟨"b1", "n", 0, [], [], none⟩ st ∧
      ((some (⟨"b1", "n", 5, ["x"], [], none⟩ : Board)).isSome = true ↔
        (1000 < st.historyEventCount ∨ st.rebuildingSnapshot = true)) ∧
      (st.rebuildingSnapshot =
        (getBoardHistoryRun
            (updateBoardWithEventChunk (⟨"b1", "n", 0, [], [], none⟩ : Board).serial)
            (⟨"b1", "n", 0, [], [], none⟩ : Board).serial
            (chunksAfter "b1" (⟨"b1", "n", 0, [], [], none⟩ : Board).serial
              [⟨"b1", 5, 5, [⟨.addItem "x", some 5, none⟩]⟩])
            (initialChunkState ⟨"b1", "n", 0, [], [], none⟩)).2.isSome) ∧
      (∀ snap, (some (⟨"b1", "n", 5, ["x"], [], none⟩ : Board)) = some snap →
        snap.serial = (⟨"b1", "n", 5, ["x"], [], none⟩ : Board).serial) :=
  fetchBoard_compaction ⟨"b1", "n", 0, [], [], none⟩
    [⟨"b1", 5, 5, [⟨.addItem "x", some 5, none⟩]⟩]
    ⟨⟨"b1", "n", 5, ["x"], [], none⟩, some ⟨"b1", "n", 5, ["x"], [], none⟩⟩
    (by decide)

/-- `recordFirstSerial` never touches the first-valid-serial field. -/
theorem recordFirstSerial_firstValidSerial (acc : StreamAcc)
    (chunk : List BoardHistoryEntry) :
    (recordFirstSerial acc chunk).firstValidSerial = acc.firstValidSerial := by
  unfold recordFirstSerial
  split
  · split
    · split <;> rfl
    · rfl
  · rfl

/-- `recordFirstValidSerial` never touches the last-serial field. -/
theorem recordFirstValidSerial_lastSerial (acc : StreamAcc)
    (l : List BoardHistoryEntry) :
    (recordFirstValidSerial acc l).lastSerial = acc.lastSerial := by
  unfold recordFirstValidSerial
  split
  · split
    · split <;> rfl
    · rfl
  · rfl

/-- `recordFirstValidSerial` on a list headed by an entry with a serial. -/
theorem recordFirstValidSerial_firstValidSerial (acc : StreamAcc)
    (l : List BoardHistoryEntry) (e0 : BoardHistoryEntry) (s : Int)
    (hhead : l.head? = some e0) (hserial : e0.serial = some s) :
    (recordFirstValidSerial acc l).firstValidSerial =
      if acc.firstValidSerial = -1 then s else acc.firstValidSerial := by
  simp only [recordFirstValidSerial, hhead, hserial]
  split_ifs <;> rfl

/-- The last streamed serial of a cons of chunks. -/
theorem lastStreamedSerial_cons (chunk : List BoardHistoryEntry)
    (rest : List (List BoardHistoryEntry)) (last : BoardHistoryEntry)
    (h : chunk.getLast? = some last) :
    lastStreamedSerial (chunk :: rest) =
      if rest.isEmpty then last.serial.getD (-1) else lastStreamedSerial rest := by
  cases rest with
  | nil => simp [lastStreamedSerial, h]
  | cons r rs => simp [lastStreamedSerial, List.getLast?_cons_cons]

/-- The first valid serial of a cons of chunks is decided by the head
chunk's surviving events when there are any. -/
theorem firstValidSerialIn_cons (afterSerial : Int)
    (chunk : List BoardHistoryEntry) (rest : List (List BoardHistoryEntry)) :
    firstValidSerialIn afterSerial (chunk :: rest) =
      match (chunk.filter (validAfter afterSerial)).head? with
      | some e => e.serial
      | none => firstValidSerialIn afterSerial rest := by
  unfold firstValidSerialIn
  rw [List.flatten_cons, List.filter_append, List.head?_append]
  cases hh : (chunk.filter (validAfter afterSerial)).head? with
  | some e => simp [Option.or]
  | none => simp [Option.or]

/-- Any first valid serial exceeds the bound. -/
theorem firstValidSerialIn_gt (afterSerial : Int)
    (chunks : List (List BoardHistoryEntry)) (s : Int)
    (h : firstValidSerialIn afterSerial chunks = some s) : afterSerial < s := by
  unfold firstValidSerialIn at h
  cases hh : (chunks.flatten.filter (validAfter afterSerial)).head? with
  | none => rw [hh] at h; exact Option.noConfusion h
  | some e =>
    rw [hh] at h
    dsimp only [Option.bind] at h
    have hmem : e ∈ chunks.flatten.filter (validAfter afterSerial) :=
      List.mem_of_mem_head? hh
    have hvalid : validAfter afterSerial e = true := (List.mem_filter.mp hmem).2
    cases hs : e.serial with
    | none =>
      unfold validAfter at hvalid
      rw [hs] at hvalid
      exact Bool.noConfusion hvalid
    | some s' =>
      rw [hs] at h
      have hss : s' = s := Option.some.inj h
      have hd : decide (afterSerial < s') = true := by
        unfold validAfter at hvalid
        rw [hs] at hvalid
        exact hvalid
      have hlt := of_decide_eq_true hd
      omega

/-- Characterization of the streaming loop of `getBoardHistory` with the
collecting callback: it never fails on non-empty chunks, its final last
serial is the last streamed serial, and its final first-valid serial is
the first surviving serial (when not already set on entry). -/
theorem streamValidChunks_collect_char (afterSerial : Int) (h0 : 0 ≤ afterSerial) :
    ∀ (chunks : List (List BoardHistoryEntry))
      (st : List (List BoardHistoryEntry)) (acc : StreamAcc),
      (∀ c ∈ chunks, c ≠ []) →
      ∃ (stF : List (List BoardHistoryEntry)) (fsF : Int),
        streamValidChunks (fun acc0 chunk => .ok (acc0 ++ [chunk])) afterSerial
            chunks st acc =
          (stF,
           ⟨fsF,
            if chunks.isEmpty then acc.lastSerial else lastStreamedSerial chunks,
            if acc.firstValidSerial = -1 then
              (firstValidSerialIn afterSerial chunks).getD (-1)
            else acc.firstValidSerial⟩,
           none) := by
  intro chunks
  induction chunks with
  | nil =>
    intro st acc _
    refine ⟨st, acc.firstSerial, ?_⟩
    cases acc with
    | mk fs ls fv =>
      by_cases hfv : fv = -1
      · subst hfv
        simp [streamValidChunks, firstValidSerialIn]
      · simp [streamValidChunks, hfv]
  | cons chunk rest ih =>
    intro st acc hne
    have hchunk : chunk ≠ [] := hne chunk (List.mem_cons_self _ _)
    have hnerest : ∀ c ∈ rest, c ≠ [] := fun c hc => hne c (List.mem_cons_of_mem _ hc)
    obtain ⟨last, hlast⟩ : ∃ l, chunk.getLast? = some l := by
      cases hl : chunk.getLast? with
      | none => exact absurd (List.getLast?_eq_none_iff.mp hl) hchunk
      | some l => exact ⟨l, rfl⟩
    simp only [streamValidChunks, hlast]
    cases hf : chunk.filter (validAfter afterSerial) with
    | nil =>
      obtain ⟨stF, fsF, hrec⟩ := ih st
        ⟨(recordFirstSerial acc chunk).firstSerial, last.serial.getD (-1),
          (recordFirstSerial acc chunk).firstValidSerial⟩ hnerest
      rw [hrec]
      refine ⟨stF, fsF, ?_⟩
      simp only [Prod.mk.injEq, StreamAcc.mk.injEq, true_and, and_true]
      constructor
      · rw [lastStreamedSerial_cons chunk rest last hlast]
        simp [List.isEmpty_cons]
      · rw [firstValidSerialIn_cons afterSerial chunk rest, hf]
        simp only [List.head?_nil]
        rw [recordFirstSerial_firstValidSerial]
    | cons v0 vs =>
      have hv0mem : v0 ∈ chunk.filter (validAfter afterSerial) := by
        rw [hf]; exact List.mem_cons_self _ _
      have hv0 : validAfter afterSerial v0 = true := (List.mem_filter.mp hv0mem).2
      obtain ⟨s0, hs0, hgt⟩ : ∃ s0, v0.serial = some s0 ∧ afterSerial < s0 := by
        unfold validAfter at hv0
        cases hsv : v0.serial with
        | none => rw [hsv] at hv0; exact Bool.noConfusion hv0
        | some s =>
          rw [hsv] at hv0
          exact ⟨s, rfl, of_decide_eq_true hv0⟩
      obtain ⟨stF, fsF, hrec⟩ := ih (st ++ [v0 :: vs])
        (recordFirstValidSerial
          ⟨(recordFirstSerial acc chunk).firstSerial, last.serial.getD (-1),
            (recordFirstSerial acc chunk).firstValidSerial⟩
          (v0 :: vs)) hnerest
      dsimp only
      rw [hrec]
      refine ⟨stF, fsF, ?_⟩
      simp only [Prod.mk.injEq, StreamAcc.mk.injEq, true_and, and_true]
      constructor
      · rw [recordFirstValidSerial_lastSerial,
          lastStreamedSerial_cons chunk rest last hlast]
        simp [List.isEmpty_cons]
      · rw [firstValidSerialIn_cons afterSerial chunk rest, hf]
        rw [recordFirstValidSerial_firstValidSerial _ (v0 :: vs) v0 s0 rfl hs0]
        try dsimp only
        rw [recordFirstSerial_firstValidSerial]
        by_cases hacc : acc.firstValidSerial = -1
        · have hs0ne : ¬s0 = -1 := by omega
          simp [hacc, hs0, hs0ne]
        · simp [hacc, hs0]

/-- Claim C5: against non-empty streamed chunks and a non-negative
starting serial, `getBoardHistory` completes without error exactly when
there is no event with serial greater than `afterSerial` and `afterSerial`
is 0, or the last streamed serial equals `afterSerial`, or the first
event with serial greater than `afterSerial` has serial exactly
`afterSerial + 1`; in every other case it throws. -/
theorem getBoardHistory_ok_iff (afterSerial : Int)
    (chunks : List (List BoardHistoryEntry))
    (h0 : 0 ≤ afterSerial) (hne : ∀ c ∈ chunks, c ≠ []) :
    (∃ r, getBoardHistory afterSerial chunks = .ok r) ↔
      ((firstValidSerialIn afterSerial chunks = none ∧ afterSerial = 0) ∨
       lastStreamedSerial chunks = afterSerial ∨
       firstValidSerialIn afterSerial chunks = some (afterSerial + 1)) := by
  obtain ⟨stF, fsF, hchar⟩ :=
    streamValidChunks_collect_char afterSerial h0 chunks [] ⟨-1, -1, -1⟩ hne
  have hgetD_none : (firstValidSerialIn afterSerial chunks).getD (-1) = -1 ↔
      firstValidSerialIn afterSerial chunks = none := by
    cases hF : firstValidSerialIn afterSerial chunks with
    | none => simp
    | some s =>
      have hs := firstValidSerialIn_gt afterSerial chunks s hF
      simp only [Option.getD_some]
      constructor
      · intro h; omega
      · intro h; exact Option.noConfusion h
  have hgetD_succ : (firstValidSerialIn afterSerial chunks).getD (-1) = afterSerial + 1 ↔
      firstValidSerialIn afterSerial chunks = some (afterSerial + 1) := by
    cases hF : firstValidSerialIn afterSerial chunks with
    | none =>
      simp only [Option.getD_none]
      constructor
      · intro h; omega
      · intro h; exact Option.noConfusion h
    | some s => simp
  have hls : (if chunks.isEmpty then (-1 : Int) else lastStreamedSerial chunks) =
      lastStreamedSerial chunks := by
    cases chunks <;> simp [lastStreamedSerial]
  unfold getBoardHistory getBoardHistoryRun
  rw [hchar]
  dsimp only
  rw [hls]
  rw [if_pos rfl]
  split_ifs with c1 c2 c3 c4
  · exact iff_of_true ⟨stF, rfl⟩ (Or.inr (Or.inl c1))
  · exact iff_of_true ⟨stF, rfl⟩ (Or.inr (Or.inr (hgetD_succ.mp c2)))
  · exact iff_of_true ⟨stF, rfl⟩ (Or.inl ⟨hgetD_none.mp c3, c4⟩)
  · refine iff_of_false ?_ ?_
    · rintro ⟨r, hr⟩
      exact hr
    · rintro (⟨hn, hz⟩ | hl | hs)
      · exact c4 hz
      · exact c1 hl
      · exact c2 (hgetD_succ.mpr hs)
  · refine iff_of_false ?_ ?_
    · rintro ⟨r, hr⟩
      exact hr
    · rintro (⟨hn, hz⟩ | hl | hs)
      · exact c3 (hgetD_none.mpr hn)
      · exact c1 hl
      · exact c2 (hgetD_succ.mpr hs)

/-- Witness for C5: a single chunk continuing exactly at serial 1 after a
request from serial 0 completes without error. -/
theorem getBoardHistory_ok_iff_witness :
    (∃ r, getBoardHistory 0 [[⟨.addItem "a", some 1, none⟩]] = .ok r) ↔
      ((firstValidSerialIn 0 [[⟨.addItem "a", some 1, none⟩]] = none ∧ (0 : Int) = 0) ∨
       lastStreamedSerial [[⟨.addItem "a", some 1, none⟩]] = 0 ∨
       firstValidSerialIn 0 [[⟨.addItem "a", some 1, none⟩]] = some (0 + 1)) :=
  getBoardHistory_ok_iff 0 [[⟨.addItem "a", some 1, none⟩]] (by decide) (by decide)

end OurBoard
